import Mathlib

/-!
Verification development for the LeadsGenAi repository's nominal core:
the response extractor of `src/services/geminiService.ts` and the
credential store of `src/services/authService.ts`.

The JavaScript runtime pieces the code leans on (`JSON.parse`,
`JSON.stringify`, the two regular expressions, property access and
truthiness) are embedded as executable Lean functions.  Browser
`localStorage` is a pair of optional strings (one per fixed key).
JavaScript exceptions are modelled with `Except`.
-/

namespace LeadsGen

/-- JavaScript values produced by `JSON.parse`.  A number keeps its source
lexeme: no claim in this development depends on numeric magnitude, only on
parsability and on truthiness (zero versus non-zero), both of which are
decidable from the lexeme. -/
inductive JsonValue where
  | null
  | bool (b : Bool)
  | num (lexeme : String)
  | str (s : String)
  | arr (elems : List JsonValue)
  | obj (entries : List (String × JsonValue))
deriving Repr

/-- The left brace character, written via its code point. -/
def lbrace : Char := Char.ofNat 123

/-- The right brace character, written via its code point. -/
def rbrace : Char := Char.ofNat 125

/-- JSON whitespace accepted by `JSON.parse` between tokens:
space, tab, line feed, carriage return. -/
def isJsonWs (c : Char) : Bool :=
  c = ' ' || c = '\t' || c = '\n' || c = '\r'

/-- Drop leading JSON whitespace. -/
def skipWs : List Char → List Char
  | [] => []
  | c :: rest => if isJsonWs c then skipWs rest else c :: rest

/-- Decode one hexadecimal digit. -/
def hexVal (c : Char) : Option Nat :=
  if '0' ≤ c ∧ c ≤ '9' then some (c.toNat - '0'.toNat)
  else if 'a' ≤ c ∧ c ≤ 'f' then some (c.toNat - 'a'.toNat + 10)
  else if 'A' ≤ c ∧ c ≤ 'F' then some (c.toNat - 'A'.toNat + 10)
  else none

/-- Turn a code point into a `Char` via `Char.ofNat`; code points Lean's
`Char` cannot hold (lone surrogates, which `JSON.parse` tolerates) become
the default character, an infidelity no claim depends on. -/
def charFromCode (n : Nat) : Char := Char.ofNat n

/-- Decode four hex digits. -/
def hex4 : List Char → Option Nat
  | h1 :: h2 :: h3 :: h4 :: _ =>
    match hexVal h1, hexVal h2, hexVal h3, hexVal h4 with
    | some a, some b, some c, some d => some (((a * 16 + b) * 16 + c) * 16 + d)
    | _, _, _, _ => none
  | _ => none

/-- Fueled reader for the body of a JSON string literal (the opening
quote already consumed): returns the decoded characters and the input
after the closing quote.  Raw control characters are rejected; escape
sequences follow the JSON grammar; a `\u` escape holding a high
surrogate followed directly by a `\u` low surrogate is combined into one
character, as `JSON.parse` does.  Every call consumes at least one input
character, so `length + 1` fuel always suffices. -/
def parseStrLoop : Nat → List Char → Option (List Char × List Char)
  | 0, _ => none
  | f + 1, input =>
    match input with
    | [] => none
    | '"' :: rest => some ([], rest)
    | '\\' :: [] => none
    | '\\' :: e :: rest1 =>
      if e = '"' ∨ e = '\\' ∨ e = '/' then
        (parseStrLoop f rest1).map (fun p => (e :: p.1, p.2))
      else if e = 'b' then
        (parseStrLoop f rest1).map (fun p => (Char.ofNat 8 :: p.1, p.2))
      else if e = 'f' then
        (parseStrLoop f rest1).map (fun p => (Char.ofNat 12 :: p.1, p.2))
      else if e = 'n' then
        (parseStrLoop f rest1).map (fun p => ('\n' :: p.1, p.2))
      else if e = 'r' then
        (parseStrLoop f rest1).map (fun p => ('\r' :: p.1, p.2))
      else if e = 't' then
        (parseStrLoop f rest1).map (fun p => ('\t' :: p.1, p.2))
      else if e = 'u' then
        match rest1 with
        | h1 :: h2 :: h3 :: h4 :: rest2 =>
          match hex4 (h1 :: h2 :: h3 :: h4 :: []) with
          | none => none
          | some v =>
            if 0xD800 ≤ v ∧ v < 0xDC00 then
              match rest2 with
              | '\\' :: 'u' :: g1 :: g2 :: g3 :: g4 :: rest3 =>
                match hex4 (g1 :: g2 :: g3 :: g4 :: []) with
                | some w =>
                  if 0xDC00 ≤ w ∧ w < 0xE000 then
                    (parseStrLoop f rest3).map (fun p =>
                      (charFromCode (0x10000 + (v - 0xD800) * 0x400 + (w - 0xDC00)) :: p.1,
                       p.2))
                  else
                    (parseStrLoop f rest2).map (fun p => (charFromCode v :: p.1, p.2))
                | none =>
                  (parseStrLoop f rest2).map (fun p => (charFromCode v :: p.1, p.2))
              | _ =>
                (parseStrLoop f rest2).map (fun p => (charFromCode v :: p.1, p.2))
            else
              (parseStrLoop f rest2).map (fun p => (charFromCode v :: p.1, p.2))
        | _ => none
      else none
    | c :: rest =>
      if c.toNat < 0x20 then none
      else (parseStrLoop f rest).map (fun p => (c :: p.1, p.2))

/-- The body of a JSON string literal, with the always-sufficient fuel. -/
def parseStringBody (l : List Char) : Option (List Char × List Char) :=
  parseStrLoop (l.length + 1) l

/-- Digits of a decimal run. -/
def takeDigits (l : List Char) : List Char × List Char :=
  (l.takeWhile (fun c => c.isDigit), l.dropWhile (fun c => c.isDigit))

/-- Lex the fraction part of a JSON number, if a dot starts the input;
a dot with no following digit is a syntax error. -/
def parseFracPart (l : List Char) : Option (List Char × List Char) :=
  match l with
  | '.' :: r =>
    let p := takeDigits r
    if p.1 = [] then none else some ('.' :: p.1, p.2)
  | _ => some ([], l)

/-- Lex the exponent part of a JSON number, if an `e`/`E` starts the input;
an exponent marker with no following digit is a syntax error. -/
def parseExpPart (l : List Char) : Option (List Char × List Char) :=
  match l with
  | e :: r =>
    if e = 'e' ∨ e = 'E' then
      match r with
      | s :: r2 =>
        if s = '+' ∨ s = '-' then
          let p := takeDigits r2
          if p.1 = [] then none else some (e :: s :: p.1, p.2)
        else
          let p := takeDigits r
          if p.1 = [] then none else some (e :: p.1, p.2)
      | [] => none
    else some ([], l)
  | [] => some ([], l)

/-- Lex a JSON number literal, returning its lexeme and the rest. -/
def parseNumber (l : List Char) : Option (List Char × List Char) :=
  let p0 := match l with
    | '-' :: r => (['-'], r)
    | _ => (([] : List Char), l)
  let neg := p0.1
  let l1 := p0.2
  match l1 with
  | [] => none
  | c :: _ =>
    if c.isDigit then
      let p1 := if c = '0' then ([c], l1.tail) else takeDigits l1
      match parseFracPart p1.2 with
      | none => none
      | some p2 =>
        match parseExpPart p2.2 with
        | none => none
        | some p3 =>
          some (neg ++ p1.1 ++ p2.1 ++ p3.1, p3.2)
    else none

mutual

/-- Recursive-descent parse of one JSON value at the head of the input
(leading whitespace already skipped), returning the value and the rest.
The fuel argument only bounds recursion depth so the definition is
structural; `jsonParse` supplies more fuel than any input can consume. -/
def parseVal : Nat → List Char → Option (JsonValue × List Char)
  | 0, _ => none
  | fuel + 1, input =>
    match input with
    | 'n' :: 'u' :: 'l' :: 'l' :: rest => some (.null, rest)
    | 't' :: 'r' :: 'u' :: 'e' :: rest => some (.bool true, rest)
    | 'f' :: 'a' :: 'l' :: 's' :: 'e' :: rest => some (.bool false, rest)
    | '"' :: rest =>
      (parseStringBody rest).map (fun p => (.str (String.mk p.1), p.2))
    | '[' :: rest =>
      match skipWs rest with
      | ']' :: rest2 => some (.arr [], rest2)
      | rest1 =>
        (parseElems fuel rest1).map (fun p => (.arr p.1, p.2))
    | c :: rest =>
      if c = lbrace then
        match skipWs rest with
        | rest1 =>
          if rest1.head? = some rbrace then some (.obj [], rest1.tail)
          else (parseEntries fuel rest1).map (fun p => (.obj p.1, p.2))
      else
        (parseNumber (c :: rest)).map (fun p => (.num (String.mk p.1), p.2))
    | [] => none

/-- Parse a non-empty comma-separated element list, the closing `]`
included; whitespace at the very front already skipped. -/
def parseElems : Nat → List Char → Option (List JsonValue × List Char)
  | 0, _ => none
  | fuel + 1, input =>
    match parseVal fuel input with
    | none => none
    | some (v, rest) =>
      match skipWs rest with
      | ',' :: rest2 =>
        (parseElems fuel (skipWs rest2)).map (fun p => (v :: p.1, p.2))
      | ']' :: rest2 => some ([v], rest2)
      | _ => none

/-- Parse a non-empty comma-separated `"key": value` entry list, the
closing brace included; whitespace at the very front already skipped. -/
def parseEntries : Nat → List Char → Option (List (String × JsonValue) × List Char)
  | 0, _ => none
  | fuel + 1, input =>
    match input with
    | '"' :: rest =>
      match parseStringBody rest with
      | none => none
      | some (key, rest1) =>
        match skipWs rest1 with
        | ':' :: rest2 =>
          match parseVal fuel (skipWs rest2) with
          | none => none
          | some (v, rest3) =>
            match skipWs rest3 with
            | ',' :: rest4 =>
              (parseEntries fuel (skipWs rest4)).map
                (fun p => ((String.mk key, v) :: p.1, p.2))
            | c :: rest4 =>
              if c = rbrace then some ([(String.mk key, v)], rest4) else none
            | [] => none
        | _ => none
    | _ => none

end

/-- The model of `JSON.parse`: parse the whole string as one JSON value,
allowing surrounding whitespace; `none` models a thrown `SyntaxError`.
The fuel `2 * length + 12` exceeds the recursion depth reachable on any
input, since at least one character is consumed every two nested calls. -/
def jsonParse (s : String) : Option JsonValue :=
  let cs := skipWs s.data
  match parseVal (2 * s.data.length + 12) cs with
  | some (v, rest) => if skipWs rest = [] then some v else none
  | none => none

/-- Hexadecimal digit character (lowercase, as `JSON.stringify` emits). -/
def hexDigitChar (n : Nat) : Char :=
  if n < 10 then Char.ofNat ('0'.toNat + n) else Char.ofNat ('a'.toNat + n - 10)

/-- Escaping of one string character, as `JSON.stringify` performs it. -/
def escapeChar (c : Char) : List Char :=
  if c = '"' then ['\\', '"']
  else if c = '\\' then ['\\', '\\']
  else if c = Char.ofNat 8 then ['\\', 'b']
  else if c = '\t' then ['\\', 't']
  else if c = '\n' then ['\\', 'n']
  else if c = Char.ofNat 12 then ['\\', 'f']
  else if c = '\r' then ['\\', 'r']
  else if c.toNat < 0x20 then
    ['\\', 'u', '0', '0', hexDigitChar (c.toNat / 16), hexDigitChar (c.toNat % 16)]
  else [c]

/-- Rendering of a string by `JSON.stringify`, quotes included. -/
def escapeString (s : String) : List Char :=
  '"' :: (s.data.flatMap escapeChar) ++ ['"']

/-- Comma-join rendered pieces. -/
def joinComma : List (List Char) → List Char
  | [] => []
  | [x] => x
  | x :: xs => x ++ ',' :: joinComma xs

mutual

/-- The model of `JSON.stringify` (no indent argument): renders a value
with no inter-token whitespace, object keys in insertion order. -/
def stringifyChars : JsonValue → List Char
  | .null => 'n' :: 'u' :: 'l' :: 'l' :: []
  | .bool true => 't' :: 'r' :: 'u' :: 'e' :: []
  | .bool false => 'f' :: 'a' :: 'l' :: 's' :: 'e' :: []
  | .num lex => lex.data
  | .str s => escapeString s
  | .arr es => '[' :: joinComma (stringifyList es) ++ [']']
  | .obj kvs => lbrace :: joinComma (stringifyEntries kvs) ++ [rbrace]

/-- Rendered array elements, in order. -/
def stringifyList : List JsonValue → List (List Char)
  | [] => []
  | v :: vs => stringifyChars v :: stringifyList vs

/-- Rendered object entries, in order. -/
def stringifyEntries : List (String × JsonValue) → List (List Char)
  | [] => []
  | (k, v) :: kvs => (escapeString k ++ ':' :: stringifyChars v) :: stringifyEntries kvs

end

/-- String form of `JSON.stringify`. -/
def jsonStringify (v : JsonValue) : String := String.mk (stringifyChars v)

/-- A stored credential record, as `register` writes it: the four fields,
in insertion order, all strings.  The spec's §3 "stored credential record". -/
structure UserRec where
  id : String
  name : String
  email : String
  password : String

/-- The JSON object a credential record is held as in the persisted list. -/
def userToJson (u : UserRec) : JsonValue :=
  .obj [("id", .str u.id), ("name", .str u.name),
        ("email", .str u.email), ("password", .str u.password)]

/-- The JSON array form of a whole credential list. -/
def usersToJson (l : List UserRec) : JsonValue := .arr (l.map userToJson)

/-- JavaScript exceptions that can escape the modelled service code:
`SyntaxError` from `JSON.parse` and `TypeError` from property access or
method calls on unsuitable values. -/
inductive JsErr where
  | parseError
  | typeError
deriving Repr, DecidableEq

/-- Last binding of a key in an object entry list; on duplicate JSON keys
`JSON.parse` keeps the last one. -/
def lookupLast (entries : List (String × JsonValue)) (k : String) : Option JsonValue :=
  match entries with
  | [] => none
  | (k2, v) :: rest =>
    match lookupLast rest k with
    | some r => some r
    | none => if k2 = k then some v else none

/-- JS property access `v.key` as the services use it: reading a property
of `null` throws a `TypeError`; an object yields its binding; any other
value yields `undefined` (modelled `none`). -/
def jsGetField : JsonValue → String → Except JsErr (Option JsonValue)
  | .null, _ => .error .typeError
  | .obj entries, k => .ok (lookupLast entries k)
  | _, _ => .ok none

/-- Calling `.toLowerCase()` on a possibly-absent field value: only a string has
the method; on `undefined` or any non-string the call throws.  The platform
case mapping `String.prototype.toLowerCase` is passed in as the parameter
`lower`, exactly as `Date.now()` is passed in as `now`: every theorem below
holds for an arbitrary `lower`, hence in particular for the Unicode mapping
the engine implements. -/
def jsToLowerVal (lower : String → String) : Option JsonValue → Except JsErr String
  | some (.str s) => .ok (lower s)
  | _ => .error .typeError

/-- Whether a number lexeme denotes zero: all mantissa digits are 0. -/
def numIsZero (lex : String) : Bool :=
  ((lex.data.takeWhile (fun c => c ≠ 'e' ∧ c ≠ 'E')).filter
    (fun c => c.isDigit)).all (fun c => c = '0')

/-- JS truthiness of a parsed JSON value. -/
def truthy : JsonValue → Bool
  | .null => false
  | .bool b => b
  | .num lex => ! numIsZero lex
  | .str s => s ≠ ""
  | .arr _ => true
  | .obj _ => true

/-- The `a || b` default idiom on a possibly-absent field (`undefined` and
falsy values fall back to the default). -/
def jsOr (v : Option JsonValue) (d : JsonValue) : JsonValue :=
  match v with
  | some x => if truthy x then x else d
  | none => d

/-- Browser `localStorage` as the auth service sees it: the value stored
under `lead_gen_users_db` and the value under `lead_gen_active_session`;
`none` models an absent key (`getItem` returning `null`). -/
structure Store where
  db : Option String
  session : Option String
deriving Repr

/-- Errors `login`/`register` can surface: a thrown `new Error(msg)` or an
uncaught runtime exception. -/
inductive AuthErr where
  | js (e : JsErr)
  | message (msg : String)
deriving Repr, DecidableEq

/-- Model of `usersRaw ? JSON.parse(usersRaw) : []` — an absent or empty-string
(falsy) raw value yields an empty list; a parse failure propagates. -/
def parseDbValue (raw : Option String) : Except JsErr JsonValue :=
  match raw with
  | none => .ok (.arr [])
  | some s =>
    if s = "" then .ok (.arr [])
    else
      match jsonParse s with
      | some v => .ok v
      | none => .error .parseError

/-- The `login` find predicate:
`u.email.toLowerCase() === email.toLowerCase() && u.password === password`.
The `&&` short-circuits, strict equality against a non-string password
field is simply false. -/
def loginPred (lower : String → String) (email password : String)
    (u : JsonValue) : Except JsErr Bool := do
  let ev ← jsGetField u "email"
  let el ← jsToLowerVal lower ev
  if el = lower email then
    let pv ← jsGetField u "password"
    pure (match pv with | some (.str s) => s = password | _ => false)
  else
    pure false

/-- The `register` duplicate-check predicate:
`u.email.toLowerCase() === email.toLowerCase()`. -/
def registerPred (lower : String → String) (email : String)
    (u : JsonValue) : Except JsErr Bool := do
  let ev ← jsGetField u "email"
  let el ← jsToLowerVal lower ev
  pure (el = lower email)

/-- Model of `Array.prototype.find`: left to right, stops at the first hit, and an
exception in the predicate propagates. -/
def jsFind (pred : JsonValue → Except JsErr Bool) :
    List JsonValue → Except JsErr (Option JsonValue)
  | [] => .ok none
  | u :: rest => do
    let b ← pred u
    if b then pure (some u) else jsFind pred rest

/-- Model of `Array.prototype.some`: left to right with short-circuit. -/
def jsAny (pred : JsonValue → Except JsErr Bool) :
    List JsonValue → Except JsErr Bool
  | [] => .ok false
  | u :: rest => do
    let b ← pred u
    if b then pure true else jsAny pred rest

/-- One optional entry of an object literal; a field holding `undefined`
is dropped, as `JSON.stringify` (and every observation the app makes)
drops it. -/
def optEntry (k : String) (v : Option JsonValue) : List (String × JsonValue) :=
  match v with
  | some x => [(k, x)]
  | none => []

/-- The session object `{ id: ..., name: ..., email: ... }`. -/
def mkSessionObj (i n e : Option JsonValue) : JsonValue :=
  .obj (optEntry "id" i ++ optEntry "name" n ++ optEntry "email" e)

/-- Model of `authService.login` of `src/services/authService.ts` (the awaited
`delay(800)` only suspends; it has no effect on the state).  `lower` supplies
the platform case mapping `String.prototype.toLowerCase`.  Returns the
produced value or error together with the post-call store. -/
def login (lower : String → String) (st : Store) (email password : String) :
    Except AuthErr JsonValue × Store :=
  match parseDbValue st.db with
  | .error e => (.error (.js e), st)
  | .ok usersVal =>
    match usersVal with
    | .arr users =>
      match jsFind (loginPred lower email password) users with
      | .error e => (.error (.js e), st)
      | .ok none => (.error (.message "Invalid email or password."), st)
      | .ok (some u) =>
        match jsGetField u "id", jsGetField u "name", jsGetField u "email" with
        | .ok iv, .ok nv, .ok ev =>
          let sess := mkSessionObj iv nv ev
          (.ok sess, { st with session := some (jsonStringify sess) })
        | _, _, _ => (.error (.js .typeError), st)
    | _ => (.error (.js .typeError), st)

/-- Model of `authService.register`.  `now` stands for `Date.now()`, supplying the
generated identifier `user_${Date.now()}`; `lower` stands for the platform
case mapping `String.prototype.toLowerCase`. -/
def register (lower : String → String) (st : Store)
    (name email password : String) (now : Nat) :
    Except AuthErr JsonValue × Store :=
  match parseDbValue st.db with
  | .error e => (.error (.js e), st)
  | .ok usersVal =>
    match usersVal with
    | .arr users =>
      match jsAny (registerPred lower email) users with
      | .error e => (.error (.js e), st)
      | .ok true => (.error (.message "User already exists with this email."), st)
      | .ok false =>
        let newId := "user_" ++ toString now
        let newUser : JsonValue := .obj [("id", .str newId), ("name", .str name),
          ("email", .str email), ("password", .str password)]
        let sess := mkSessionObj (some (.str newId)) (some (.str name))
          (some (.str email))
        (.ok sess, { db := some (jsonStringify (.arr (users ++ [newUser]))),
                     session := some (jsonStringify sess) })
    | _ => (.error (.js .typeError), st)

/-- Model of `authService.logout`: `localStorage.removeItem(SESSION_KEY)`. -/
def logout (st : Store) : Store := { st with session := none }

/-- Model of `authService.getCurrentUser`: absent or falsy stored session gives
`null`; a parse failure is caught and gives `null`; otherwise the parsed
value is returned. -/
def getCurrentUser (st : Store) : Option JsonValue :=
  match st.session with
  | none => none
  | some s => if s = "" then none else jsonParse s

/-- The whitespace class `\s` of JavaScript regular expressions. -/
def isJsWs (c : Char) : Bool :=
  c == ' ' || c == '\t' || c == '\n' || c == '\r' ||
  c == Char.ofNat 11 || c == Char.ofNat 12 ||
  c == Char.ofNat 0xA0 || c == Char.ofNat 0x1680 ||
  (0x2000 ≤ c.toNat && c.toNat ≤ 0x200A) ||
  c == Char.ofNat 0x2028 || c == Char.ofNat 0x2029 || c == Char.ofNat 0x202F ||
  c == Char.ofNat 0x205F || c == Char.ofNat 0x3000 || c == Char.ofNat 0xFEFF

/-- The remainder after the first occurrence of `needle` in the input, or
`none` if `needle` (assumed non-empty) never occurs. -/
def afterFirst (needle : List Char) : List Char → Option (List Char)
  | [] => none
  | c :: rest =>
    if needle.isPrefixOf (c :: rest) then some ((c :: rest).drop needle.length)
    else afterFirst needle rest

/-- The segment before the first occurrence of `needle` in the input, or
`none` if `needle` (assumed non-empty) never occurs. -/
def beforeFirst (needle : List Char) : List Char → Option (List Char)
  | [] => none
  | c :: rest =>
    if needle.isPrefixOf (c :: rest) then some []
    else (beforeFirst needle rest).map (fun t => c :: t)

/-- The opening text the fence regex requires. -/
def fenceOpenChars : List Char :=
  '`' :: '`' :: '`' :: 'j' :: 's' :: 'o' :: 'n' :: '\n' :: []

/-- The closing text the fence regex requires. -/
def fenceCloseChars : List Char := '\n' :: '`' :: '`' :: '`' :: []

/-- The capture group of `/```json\n([\s\S]*?)\n```/` on the input: the
leftmost viable start, then the lazily shortest interior.  (If the first
occurrence of the opening has no closing after it, no later one has
either, so scanning for the first opening is exact.) -/
def fenceCapture (cs : List Char) : Option (List Char) :=
  match afterFirst fenceOpenChars cs with
  | none => none
  | some tail => beforeFirst fenceCloseChars tail

/-- Locate the last `}` in the input that is followed by optional `\s*`
whitespace and `]`, returning everything consumed up to and including
that `]` — the backtracking behaviour of the greedy `[\s\S]*\}\s*\]`
suffix of the array-fallback regex. -/
def closeSplit : List Char → Option (List Char)
  | [] => none
  | c :: rest =>
    match closeSplit rest with
    | some consumed => some (c :: consumed)
    | none =>
      if c = rbrace then
        match rest.dropWhile isJsWs with
        | ']' :: _ => some (c :: (rest.takeWhile isJsWs ++ [']']))
        | _ => none
      else none

/-- Continue the array-fallback regex after a candidate `[`: greedy `\s*`,
then `\{`, then the greedy closing search. -/
def openAndClose (l : List Char) : Option (List Char) :=
  match l.dropWhile isJsWs with
  | c :: rest =>
    if c = lbrace then
      (closeSplit rest).map (fun consumed => l.takeWhile isJsWs ++ c :: consumed)
    else none
  | [] => none

/-- The whole match of `/\[\s*\{[\s\S]*\}\s*\]/` on the input: candidate
starts are tried left to right. -/
def arrayMatch : List Char → Option (List Char)
  | [] => none
  | c :: rest =>
    if c = '[' then
      match openAndClose rest with
      | some m => some (c :: m)
      | none => arrayMatch rest
    else arrayMatch rest

/-- The array-bracket fallback and final default of
`extractJsonFromMarkdown`: an exception from `JSON.parse` propagates (to
the shared `catch`). -/
def arrayFallback (text : String) : Except JsErr JsonValue :=
  match arrayMatch text.data with
  | some m =>
    match jsonParse (String.mk m) with
    | some v => .ok v
    | none => .error .parseError
  | none => .ok (.arr [])

/-- The `try` block of `extractJsonFromMarkdown` of
`src/services/geminiService.ts`: when a fenced block with a truthy
(non-empty) capture is found, its parse is returned — a parse failure
propagates and is NOT given to the fallback, because the single
`try`/`catch` wraps both steps. -/
def extractAttempt (text : String) : Except JsErr JsonValue :=
  match fenceCapture text.data with
  | some cap =>
    if cap ≠ [] then
      match jsonParse (String.mk cap) with
      | some v => .ok v
      | none => .error .parseError
    else arrayFallback text
  | none => arrayFallback text

/-- Model of `extractJsonFromMarkdown`: the `catch` turns any exception from the
chain into the empty array. -/
def extractJsonFromMarkdown (text : String) : JsonValue :=
  match extractAttempt text with
  | .ok v => v
  | .error _ => .arr []

/-- One produced lead record of `searchLeads`'s sanitising map.  The three
always-present fields hold whatever value the `||` defaults produced; the
pass-through fields keep `undefined` as `none`. -/
structure Lead where
  id : JsonValue
  name : JsonValue
  category : JsonValue
  address : Option JsonValue
  phone : Option JsonValue
  website : Option JsonValue
  email : Option JsonValue
  socials : JsonValue
deriving Repr

/-- The body of `parsedLeads.map((item, index) => ...)` for one element;
accessing fields of a `null` element throws (caught and re-thrown by
`searchLeads`'s outer handler, hence `Except`).  `now` is the `Date.now()`
of the identifier default. -/
def sanitizeItem (industry : String) (now : Nat) (index : Nat) (item : JsonValue) :
    Except JsErr Lead := do
  let idv ← jsGetField item "id"
  let namev ← jsGetField item "name"
  let catv ← jsGetField item "category"
  let addrv ← jsGetField item "address"
  let phonev ← jsGetField item "phone"
  let webv ← jsGetField item "website"
  let emailv ← jsGetField item "email"
  let socv ← jsGetField item "socials"
  pure {
    id := jsOr idv (.str ("lead-" ++ toString now ++ "-" ++ toString index))
    name := jsOr namev (.str "Unknown Business")
    category := jsOr catv (.str industry)
    address := addrv
    phone := phonev
    website := webv
    email := emailv
    socials := match socv with | some (.arr a) => .arr a | _ => .arr [] }

/-- Index-carrying effectful map underlying `Array.prototype.map`. -/
def mapIdxExcept (f : Nat → JsonValue → Except JsErr Lead) :
    Nat → List JsonValue → Except JsErr (List Lead)
  | _, [] => .ok []
  | i, x :: xs => do
    let y ← f i x
    let ys ← mapIdxExcept f (i + 1) xs
    pure (y :: ys)

/-- The sanitising step of `searchLeads` applied to the extractor's
result: `.map` on a non-array value throws a `TypeError`. -/
def sanitizeLeads (industry : String) (now : Nat) (v : JsonValue) :
    Except JsErr (List Lead) :=
  match v with
  | .arr items => mapIdxExcept (fun i x => sanitizeItem industry now i x) 0 items
  | _ => .error .typeError

/-- The Boolean the login predicate computes on a credential record, for the
given platform case mapping. -/
def loginHit (lower : String → String) (email password : String)
    (u : UserRec) : Bool :=
  decide (lower u.email = lower email) && decide (u.password = password)

/-- Every contiguous substring of the input (with duplicates), enumerated
as prefixes of suffixes. -/
def allInfixes (cs : List Char) : List (List Char) := cs.tails.flatMap List.inits

/-- The session object login/register build from a credential record. -/
def sessionOf (u : UserRec) : JsonValue :=
  .obj [("id", .str u.id), ("name", .str u.name), ("email", .str u.email)]

/-- The credential-list invariant of the spec, relative to the platform case
mapping `lower` (the engine's `String.prototype.toLowerCase`): the stored
value, when present, is the serialisation of a record list whose emails are
pairwise distinct after applying `lower` — i.e. pairwise distinct under the
case-insensitive comparison the source performs. -/
def DbInv (lower : String → String) (st : Store) : Prop :=
  st.db = none ∨ ∃ l : List UserRec,
    st.db = some (jsonStringify (usersToJson l)) ∧
    l.Pairwise (fun a b => lower a.email ≠ lower b.email)

theorem skipWs_cons_of_not_ws {c : Char} (l : List Char) (h : isJsonWs c = false) :
    skipWs (c :: l) = c :: l := by
  simp [skipWs, h]

theorem hexVal_hexDigitChar {n : Nat} (h : n < 16) :
    hexVal (hexDigitChar n) = some n := by
  interval_cases n <;> decide

theorem psl_quote (f : Nat) (rest : List Char) :
    parseStrLoop (f + 1) ('"' :: rest) = some ([], rest) := rfl

theorem psl_plain {c : Char} (f : Nat) (rest : List Char) (hq : c ≠ '"')
    (hb : c ≠ '\\') (hc : ¬ c.toNat < 0x20) :
    parseStrLoop (f + 1) (c :: rest) =
      (parseStrLoop f rest).map (fun p => (c :: p.1, p.2)) := by
  rw [parseStrLoop.eq_def]
  simp [hq, hb, hc]

theorem psl_u (f : Nat) (d1 d2 d3 d4 : Char) (tail : List Char) (v : Nat)
    (hv : hex4 (d1 :: d2 :: d3 :: d4 :: []) = some v)
    (hns : ¬(0xD800 ≤ v ∧ v < 0xDC00)) :
    parseStrLoop (f + 1) ('\\' :: 'u' :: d1 :: d2 :: d3 :: d4 :: tail) =
      (parseStrLoop f tail).map (fun p => (charFromCode v :: p.1, p.2)) := by
  rw [parseStrLoop.eq_def]
  simp [hv, hns]

theorem psl_escapeChar (f : Nat) (c : Char) (tail : List Char) :
    parseStrLoop (f + 1) (escapeChar c ++ tail) =
      (parseStrLoop f tail).map (fun p => (c :: p.1, p.2)) := by
  by_cases h1 : c = '"'
  · subst h1; rfl
  by_cases h2 : c = '\\'
  · subst h2; rfl
  by_cases h3 : c = Char.ofNat 8
  · subst h3; rfl
  by_cases h4 : c = '\t'
  · subst h4; rfl
  by_cases h5 : c = '\n'
  · subst h5; rfl
  by_cases h6 : c = Char.ofNat 12
  · subst h6; rfl
  by_cases h7 : c = '\r'
  · subst h7; rfl
  by_cases h8 : c.toNat < 0x20
  · -- the \u00xx escape of another control character
    have he : escapeChar c =
        ['\\', 'u', '0', '0', hexDigitChar (c.toNat / 16), hexDigitChar (c.toNat % 16)] := by
      unfold escapeChar
      rw [if_neg h1, if_neg h2, if_neg h3, if_neg h4, if_neg h5, if_neg h6, if_neg h7,
        if_pos h8]
    rw [he]
    have hd : c.toNat / 16 < 16 := by omega
    have hm : c.toNat % 16 < 16 := Nat.mod_lt _ (by norm_num)
    have hns : ¬(0xD800 ≤ c.toNat ∧ c.toNat < 0xDC00) := by omega
    have hv : hex4 ('0' :: '0' :: hexDigitChar (c.toNat / 16) ::
        hexDigitChar (c.toNat % 16) :: []) = some c.toNat := by
      rw [hex4]
      rw [hexVal_hexDigitChar hd, hexVal_hexDigitChar hm]
      rw [show hexVal '0' = some 0 from rfl]
      simp only []
      congr 1
      omega
    rw [show (['\\', 'u', '0', '0', hexDigitChar (c.toNat / 16),
        hexDigitChar (c.toNat % 16)] : List Char) ++ tail =
      '\\' :: 'u' :: '0' :: '0' :: hexDigitChar (c.toNat / 16) ::
        hexDigitChar (c.toNat % 16) :: tail by simp]
    rw [psl_u f _ _ _ _ tail c.toNat hv hns]
    rw [show charFromCode c.toNat = c from Char.ofNat_toNat c]
  · -- an unescaped character
    have he : escapeChar c = [c] := by
      unfold escapeChar
      rw [if_neg h1, if_neg h2, if_neg h3, if_neg h4, if_neg h5, if_neg h6, if_neg h7,
        if_neg h8]
    rw [he]
    simp only [List.singleton_append]
    rw [psl_plain f tail h1 h2 h8]

theorem psl_escape (l : List Char) : ∀ (f : Nat) (rest : List Char),
    parseStrLoop (l.length + (f + 1)) (l.flatMap escapeChar ++ '"' :: rest) =
      some (l, rest) := by
  induction l with
  | nil =>
    intro f rest
    simp only [List.length_nil, List.flatMap_nil, List.nil_append, Nat.zero_add]
    exact psl_quote f rest
  | cons c l ih =>
    intro f rest
    rw [show (c :: l).length + (f + 1) = (l.length + (f + 1)) + 1 by simp; omega]
    simp only [List.flatMap_cons, List.append_assoc]
    rw [psl_escapeChar]
    rw [ih f rest]
    rfl

theorem escapeChar_len (c : Char) : 1 ≤ (escapeChar c).length := by
  unfold escapeChar
  split_ifs <;> simp

theorem flatMap_escape_len (l : List Char) :
    l.length ≤ (l.flatMap escapeChar).length := by
  induction l with
  | nil => simp
  | cons c l ih =>
    simp only [List.flatMap_cons, List.length_append, List.length_cons]
    have := escapeChar_len c
    omega

theorem parseStringBody_escape (l : List Char) (rest : List Char) :
    parseStringBody (l.flatMap escapeChar ++ '"' :: rest) = some (l, rest) := by
  rw [parseStringBody]
  have hL : l.length ≤ (l.flatMap escapeChar ++ '"' :: rest).length := by
    rw [List.length_append]
    have := flatMap_escape_len l
    omega
  obtain ⟨f, hf⟩ : ∃ f, (l.flatMap escapeChar ++ '"' :: rest).length + 1 =
      l.length + (f + 1) := ⟨(l.flatMap escapeChar ++ '"' :: rest).length - l.length,
    by omega⟩
  rw [hf]
  exact psl_escape l f rest

theorem parseVal_str {f : Nat} (hf : 1 ≤ f) (s : String) (rest : List Char) :
    parseVal f (escapeString s ++ rest) = some (.str s, rest) := by
  obtain ⟨g, rfl⟩ : ∃ g, f = g + 1 := ⟨f - 1, by omega⟩
  rw [show escapeString s ++ rest = '"' :: (s.data.flatMap escapeChar ++ '"' :: rest) by
    simp [escapeString]]
  rw [parseVal.eq_def]
  simp [parseStringBody_escape]

theorem skipWs_escapeString (v : String) (tail : List Char) :
    skipWs (escapeString v ++ tail) = escapeString v ++ tail := by
  rw [show escapeString v ++ tail = '"' :: (v.data.flatMap escapeChar ++ '"' :: tail) by
    simp [escapeString]]
  exact skipWs_cons_of_not_ws _ (by decide)

theorem parseEntries_last {f : Nat} (hf : 2 ≤ f) (k v : String) (rest : List Char) :
    parseEntries f (escapeString k ++ ':' :: (escapeString v ++ rbrace :: rest)) =
      some ([(k, .str v)], rest) := by
  obtain ⟨g, rfl⟩ : ∃ g, f = g + 1 := ⟨f - 1, by omega⟩
  rw [show escapeString k ++ ':' :: (escapeString v ++ rbrace :: rest) =
      '"' :: (k.data.flatMap escapeChar ++ '"' :: (':' :: (escapeString v ++ rbrace :: rest)))
    by simp [escapeString]]
  rw [parseEntries.eq_def]
  simp only [parseStringBody_escape]
  rw [skipWs_cons_of_not_ws _ (by decide)]
  simp only []
  rw [skipWs_escapeString]
  rw [parseVal_str (by omega) v (rbrace :: rest)]
  simp only []
  rw [skipWs_cons_of_not_ws _ (by decide)]
  rfl

theorem parseEntries_cons {f : Nat} (hf : 2 ≤ f) (k v : String) (more : List Char)
    (hm : skipWs more = more) :
    parseEntries f (escapeString k ++ ':' :: (escapeString v ++ ',' :: more)) =
      (parseEntries (f - 1) more).map (fun p => ((k, .str v) :: p.1, p.2)) := by
  obtain ⟨g, rfl⟩ : ∃ g, f = g + 1 := ⟨f - 1, by omega⟩
  rw [show escapeString k ++ ':' :: (escapeString v ++ ',' :: more) =
      '"' :: (k.data.flatMap escapeChar ++ '"' :: (':' :: (escapeString v ++ ',' :: more)))
    by simp [escapeString]]
  rw [parseEntries.eq_def]
  simp only [parseStringBody_escape]
  rw [skipWs_cons_of_not_ws _ (by decide)]
  simp only []
  rw [skipWs_escapeString]
  rw [parseVal_str (by omega) v (',' :: more)]
  simp only []
  rw [skipWs_cons_of_not_ws _ (by decide)]
  simp only [hm, Nat.add_sub_cancel]

theorem parseVal_lbrace_entries (g : Nat) (k : String) (t : List Char) :
    parseVal (g + 1) (lbrace :: (escapeString k ++ t)) =
      (parseEntries g (escapeString k ++ t)).map (fun p => (.obj p.1, p.2)) := by
  rw [show escapeString k ++ t = '"' :: (k.data.flatMap escapeChar ++ '"' :: t) by
    simp [escapeString]]
  rfl

theorem stringify_userToJson_append (u : UserRec) (rest : List Char) :
    stringifyChars (userToJson u) ++ rest =
      lbrace :: (escapeString "id" ++ ':' :: (escapeString u.id ++
        ',' :: (escapeString "name" ++ ':' :: (escapeString u.name ++
        ',' :: (escapeString "email" ++ ':' :: (escapeString u.email ++
        ',' :: (escapeString "password" ++ ':' :: (escapeString u.password ++
          rbrace :: rest)))))))) := by
  rw [userToJson]
  rw [stringifyChars]
  simp [stringifyEntries, stringifyChars, joinComma, List.append_assoc]

theorem parseVal_userObj {f : Nat} (hf : 6 ≤ f) (u : UserRec) (rest : List Char) :
    parseVal f (stringifyChars (userToJson u) ++ rest) = some (userToJson u, rest) := by
  obtain ⟨g, rfl⟩ : ∃ g, f = g + 1 := ⟨f - 1, by omega⟩
  rw [stringify_userToJson_append]
  rw [parseVal_lbrace_entries]
  rw [parseEntries_cons (by omega) "id" u.id _ (skipWs_escapeString _ _)]
  rw [parseEntries_cons (by omega) "name" u.name _ (skipWs_escapeString _ _)]
  rw [parseEntries_cons (by omega) "email" u.email _ (skipWs_escapeString _ _)]
  rw [parseEntries_last (by omega) "password" u.password]
  simp [userToJson]

theorem userObj_head (u : UserRec) (tail : List Char) :
    skipWs (stringifyChars (userToJson u) ++ tail) =
      stringifyChars (userToJson u) ++ tail := by
  rw [stringify_userToJson_append]
  exact skipWs_cons_of_not_ws _ (by decide)

theorem skipWs_joinComma_users (u2 : UserRec) (us : List UserRec) (tail : List Char) :
    skipWs (joinComma (stringifyList ((u2 :: us).map userToJson)) ++ tail) =
      joinComma (stringifyList ((u2 :: us).map userToJson)) ++ tail := by
  rw [show stringifyList ((u2 :: us).map userToJson) =
    stringifyChars (userToJson u2) :: stringifyList (us.map userToJson) from rfl]
  cases stringifyList (us.map userToJson) with
  | nil =>
    simp only [joinComma]
    exact userObj_head u2 tail
  | cons a b =>
    simp only [joinComma, List.append_assoc, List.cons_append]
    exact userObj_head u2 _

theorem parseElems_succ (g : Nat) (input : List Char) :
    parseElems (g + 1) input =
      (match parseVal g input with
       | none => none
       | some (v, rest) =>
         match skipWs rest with
         | ',' :: rest2 => (parseElems g (skipWs rest2)).map (fun p => (v :: p.1, p.2))
         | ']' :: rest2 => some ([v], rest2)
         | _ => none) := rfl

theorem parseElems_userObjs (us : List UserRec) (u : UserRec) :
    ∀ (f : Nat) (rest : List Char), us.length + 7 ≤ f →
    parseElems f (joinComma (stringifyList ((u :: us).map userToJson)) ++ ']' :: rest) =
      some ((u :: us).map userToJson, rest) := by
  induction us generalizing u with
  | nil =>
    intro f rest hf
    obtain ⟨g, rfl⟩ : ∃ g, f = g + 1 := ⟨f - 1, by omega⟩
    simp only [List.map_cons, List.map_nil, stringifyList, joinComma]
    rw [parseElems_succ]
    rw [parseVal_userObj (by omega) u (']' :: rest)]
    simp only []
    rw [skipWs_cons_of_not_ws _ (by decide)]
    rfl
  | cons u2 us ih =>
    intro f rest hf
    obtain ⟨g, rfl⟩ : ∃ g, f = g + 1 := ⟨f - 1, by omega⟩
    rw [show (u :: u2 :: us).map userToJson =
      userToJson u :: (u2 :: us).map userToJson from rfl]
    rw [show stringifyList (userToJson u :: (u2 :: us).map userToJson) =
      stringifyChars (userToJson u) :: stringifyList ((u2 :: us).map userToJson)
      from rfl]
    rw [show joinComma (stringifyChars (userToJson u) ::
        stringifyList ((u2 :: us).map userToJson)) =
      stringifyChars (userToJson u) ++
        ',' :: joinComma (stringifyList ((u2 :: us).map userToJson)) by
      rw [show stringifyList ((u2 :: us).map userToJson) =
        stringifyChars (userToJson u2) :: stringifyList (us.map userToJson)
        from rfl]
      rfl]
    simp only [List.append_assoc, List.cons_append]
    rw [parseElems_succ]
    rw [parseVal_userObj (by omega) u
      (',' :: (joinComma (stringifyList ((u2 :: us).map userToJson)) ++ ']' :: rest))]
    simp only []
    rw [skipWs_cons_of_not_ws _ (by decide)]
    simp only []
    rw [skipWs_joinComma_users u2 us _]
    rw [ih u2 g rest (by simp at hf ⊢; omega)]
    simp

theorem parseVal_lbrack (g : Nat) (rest : List Char) :
    parseVal (g + 1) ('[' :: rest) =
      (match skipWs rest with
       | ']' :: rest2 => some (.arr [], rest2)
       | rest1 => (parseElems g rest1).map (fun p => (.arr p.1, p.2))) := rfl

theorem stringifyList_len (vs : List JsonValue) :
    (stringifyList vs).length = vs.length := by
  induction vs with
  | nil => rfl
  | cons v vs ih => simp only [stringifyList, List.length_cons, ih]

theorem joinComma_len (pieces : List (List Char)) (h : ∀ p ∈ pieces, 1 ≤ p.length) :
    pieces.length ≤ (joinComma pieces).length := by
  induction pieces with
  | nil => simp [joinComma]
  | cons x xs ih =>
    cases xs with
    | nil =>
      simp only [joinComma, List.length_cons, List.length_nil]
      have := h x (by simp)
      omega
    | cons y ys =>
      simp only [joinComma, List.length_append, List.length_cons]
      have hx := h x (by simp)
      have hr := ih (fun p hp => h p (by simp [hp]))
      simp only [List.length_cons] at hr
      omega

theorem stringifyList_users_mem (l : List UserRec) :
    ∀ p ∈ stringifyList (l.map userToJson), 1 ≤ p.length := by
  induction l with
  | nil => simp [stringifyList]
  | cons u us ih =>
    intro p hp
    rw [show (u :: us).map userToJson = userToJson u :: us.map userToJson from rfl,
      show stringifyList (userToJson u :: us.map userToJson) =
        stringifyChars (userToJson u) :: stringifyList (us.map userToJson) from rfl] at hp
    rcases List.mem_cons.mp hp with hp2 | hp2
    · have hu := stringify_userToJson_append u []
      rw [List.append_nil] at hu
      rw [hp2, hu]
      simp
    · exact ih p hp2

theorem jsonParse_stringify_users (l : List UserRec) :
    jsonParse (jsonStringify (usersToJson l)) = some (usersToJson l) := by
  cases l with
  | nil => rfl
  | cons u us =>
    have harr : jsonStringify (usersToJson (u :: us)) =
        String.mk ('[' :: (joinComma (stringifyList ((u :: us).map userToJson)) ++
          [']'])) := by
      rw [jsonStringify, usersToJson, stringifyChars]
      simp
    rw [harr]
    have hJlen : us.length + 1 ≤
        (joinComma (stringifyList ((u :: us).map userToJson))).length := by
      have hmem := stringifyList_users_mem (u :: us)
      have hlen := joinComma_len _ hmem
      rw [stringifyList_len] at hlen
      simpa using hlen
    rw [jsonParse]
    simp only []
    rw [skipWs_cons_of_not_ws _ (by decide)]
    set J := joinComma (stringifyList ((u :: us).map userToJson)) with hJ
    set L := ('[' :: (J ++ [']'])).length with hL
    have hF : 2 * L + 12 = (2 * L + 11) + 1 := by omega
    rw [hF]
    have hws : skipWs (J ++ [']']) = J ++ [']'] := skipWs_joinComma_users u us [']']
    obtain ⟨t, ht⟩ : ∃ t, J ++ ([']'] : List Char) = lbrace :: t := by
      rw [hJ]
      rw [show stringifyList ((u :: us).map userToJson) =
        stringifyChars (userToJson u) :: stringifyList (us.map userToJson) from rfl]
      cases stringifyList (us.map userToJson) with
      | nil =>
        simp only [joinComma]
        exact ⟨_, stringify_userToJson_append u [']']⟩
      | cons a b =>
        simp only [joinComma, List.append_assoc, List.cons_append]
        exact ⟨_, stringify_userToJson_append u _⟩
    have hstep : parseVal ((2 * L + 11) + 1) ('[' :: (J ++ [']'])) =
        (parseElems (2 * L + 11) (J ++ [']'])).map (fun p => (.arr p.1, p.2)) := by
      rw [parseVal_lbrack, hws, ht]
      rfl
    rw [hstep]
    rw [show (J ++ ([']'] : List Char)) = J ++ ']' :: ([] : List Char) from rfl]
    rw [hJ]
    rw [parseElems_userObjs us u (2 * L + 11) [] (by
      have : us.length + 1 ≤ J.length := hJlen
      have hL2 : J.length + 2 = L := by rw [hL]; simp
      omega)]
    rfl

theorem getField_user_id (u : UserRec) :
    jsGetField (userToJson u) "id" = .ok (some (.str u.id)) := rfl

theorem getField_user_name (u : UserRec) :
    jsGetField (userToJson u) "name" = .ok (some (.str u.name)) := rfl

theorem getField_user_email (u : UserRec) :
    jsGetField (userToJson u) "email" = .ok (some (.str u.email)) := rfl

theorem getField_user_password (u : UserRec) :
    jsGetField (userToJson u) "password" = .ok (some (.str u.password)) := rfl

theorem jsonStringify_users_ne_empty (l : List UserRec) :
    jsonStringify (usersToJson l) ≠ "" := by
  rw [jsonStringify, usersToJson, stringifyChars]
  intro h
  have : ('[' :: joinComma (stringifyList (l.map userToJson)) ++ [']']) = [] := by
    have h2 := congrArg String.data h
    simp only [String.mk] at h2
    exact h2
  simp at this

theorem parseDb_users (l : List UserRec) :
    parseDbValue (some (jsonStringify (usersToJson l))) = .ok (usersToJson l) := by
  rw [parseDbValue]
  rw [if_neg (jsonStringify_users_ne_empty l)]
  rw [jsonParse_stringify_users l]

theorem ex_bind_ok {ε α β : Type} (x : α) (f : α → Except ε β) :
    (Except.ok x >>= f : Except ε β) = f x := rfl

theorem ex_pure {ε α : Type} (x : α) : (pure x : Except ε α) = Except.ok x := rfl

theorem loginPred_user (lower : String → String) (email password : String)
    (u : UserRec) :
    loginPred lower email password (userToJson u) =
      .ok (loginHit lower email password u) := by
  rw [loginPred]
  simp only [getField_user_email, getField_user_password]
  simp only [ex_bind_ok]
  rw [show jsToLowerVal lower (some (.str u.email)) = .ok (lower u.email) from rfl]
  simp only [ex_bind_ok, loginHit, ex_pure]
  by_cases h : lower u.email = lower email <;> simp [h]

theorem registerPred_user (lower : String → String) (email : String)
    (u : UserRec) :
    registerPred lower email (userToJson u) =
      .ok (decide (lower u.email = lower email)) := by
  rw [registerPred]
  simp only [getField_user_email]
  simp only [ex_bind_ok]
  rw [show jsToLowerVal lower (some (.str u.email)) = .ok (lower u.email) from rfl]
  simp only [ex_bind_ok, ex_pure]

theorem jsFind_users (lower : String → String) (email password : String)
    (l : List UserRec) :
    jsFind (loginPred lower email password) (l.map userToJson) =
      .ok ((l.find? (loginHit lower email password)).map userToJson) := by
  induction l with
  | nil => rfl
  | cons u us ih =>
    rw [List.map_cons, jsFind]
    simp only [loginPred_user, ex_bind_ok]
    by_cases h : loginHit lower email password u
    · rw [List.find?_cons_of_pos _ h]
      simp [h, ex_pure]
    · rw [List.find?_cons_of_neg _ h]
      simp only [Bool.not_eq_true] at h
      simp [h, ih]

theorem jsAny_users (lower : String → String) (email : String) (l : List UserRec) :
    jsAny (registerPred lower email) (l.map userToJson) =
      .ok (l.any (fun u => decide (lower u.email = lower email))) := by
  induction l with
  | nil => rfl
  | cons u us ih =>
    rw [List.map_cons, jsAny]
    simp only [registerPred_user, ex_bind_ok]
    by_cases h : lower u.email = lower email <;> simp [h, ih, ex_pure]

theorem mem_allInfixes_of_sub {sub cs : List Char} (h : sub <:+: cs) :
    sub ∈ allInfixes cs := by
  obtain ⟨s, t, rfl⟩ := h
  rw [allInfixes, List.mem_flatMap]
  refine ⟨sub ++ t, ?_, ?_⟩
  · rw [List.mem_tails, List.append_assoc]
    exact List.suffix_append s (sub ++ t)
  · rw [List.mem_inits]
    exact List.prefix_append sub t

theorem afterFirst_suffix {needle cs t : List Char} (h : afterFirst needle cs = some t) :
    t <:+ cs := by
  induction cs with
  | nil => simp [afterFirst] at h
  | cons c rest ih =>
    rw [afterFirst] at h
    split at h
    · obtain rfl : (c :: rest).drop needle.length = t := by
        injection h
      exact List.drop_suffix _ _
    · exact (ih h).trans (List.suffix_cons c rest)

theorem beforeFirst_pre {needle cs p : List Char} (h : beforeFirst needle cs = some p) :
    p <+: cs := by
  induction cs generalizing p with
  | nil => simp [beforeFirst] at h
  | cons c rest ih =>
    rw [beforeFirst] at h
    split at h
    · obtain rfl : ([] : List Char) = p := by injection h
      exact List.nil_prefix
    · cases hb : beforeFirst needle rest with
      | none => rw [hb] at h; simp at h
      | some q =>
        rw [hb] at h
        obtain rfl : c :: q = p := by injection h
        exact (List.prefix_cons_inj c).mpr (ih hb)

theorem fenceCapture_substring {cs cap : List Char} (h : fenceCapture cs = some cap) :
    cap <:+: cs := by
  rw [fenceCapture] at h
  cases ha : afterFirst fenceOpenChars cs with
  | none => rw [ha] at h; simp at h
  | some tail =>
    rw [ha] at h
    exact (beforeFirst_pre h).isInfix.trans (afterFirst_suffix ha).isInfix

theorem closeSplit_pre {l consumed : List Char} (h : closeSplit l = some consumed) :
    consumed <+: l := by
  induction l generalizing consumed with
  | nil => simp [closeSplit] at h
  | cons c rest ih =>
    rw [closeSplit] at h
    split at h
    · rename_i c2 hr
      obtain rfl : c :: c2 = consumed := by injection h
      exact (List.prefix_cons_inj c).mpr (ih hr)
    · split at h
      · split at h
        · rename_i r2 hdrop
          obtain rfl : c :: (rest.takeWhile isJsWs ++ [']']) = consumed := by
            injection h
          refine (List.prefix_cons_inj c).mpr ?_
          refine ⟨r2, ?_⟩
          rw [List.append_assoc]
          rw [show ([']'] : List Char) ++ r2 = ']' :: r2 from rfl, ← hdrop]
          exact List.takeWhile_append_dropWhile isJsWs rest
        · exact absurd h (by simp)
      · exact absurd h (by simp)

theorem openAndClose_pre {l x : List Char} (h : openAndClose l = some x) :
    x <+: l := by
  rw [openAndClose] at h
  split at h
  · rename_i c rest hdrop
    split at h
    · rename_i hc
      cases hcs : closeSplit rest with
      | none => rw [hcs] at h; simp at h
      | some consumed =>
        rw [hcs] at h
        simp only [Option.map_some'] at h
        obtain rfl : l.takeWhile isJsWs ++ c :: consumed = x := by injection h
        obtain ⟨r2, hr2⟩ := closeSplit_pre hcs
        refine ⟨r2, ?_⟩
        rw [List.append_assoc, List.cons_append, hr2, ← hdrop]
        exact List.takeWhile_append_dropWhile isJsWs l
    · exact absurd h (by simp)
  · exact absurd h (by simp)

theorem arrayMatch_substring {cs m : List Char} (h : arrayMatch cs = some m) :
    m <:+: cs := by
  induction cs generalizing m with
  | nil => simp [arrayMatch] at h
  | cons c rest ih =>
    rw [arrayMatch] at h
    split at h
    · cases ho : openAndClose rest with
      | some x =>
        rw [ho] at h
        obtain rfl : c :: x = m := by injection h
        exact (((List.prefix_cons_inj c).mpr (openAndClose_pre ho)).isInfix)
      | none =>
        rw [ho] at h
        exact (ih h).trans (List.suffix_cons c rest).isInfix
    · exact (ih h).trans (List.suffix_cons c rest).isInfix

theorem sanitizeItem_obj (ind : String) (now i : Nat)
    (entries : List (String × JsonValue)) :
    sanitizeItem ind now i (.obj entries) = .ok {
      id := jsOr (lookupLast entries "id")
        (.str ("lead-" ++ toString now ++ "-" ++ toString i))
      name := jsOr (lookupLast entries "name") (.str "Unknown Business")
      category := jsOr (lookupLast entries "category") (.str ind)
      address := lookupLast entries "address"
      phone := lookupLast entries "phone"
      website := lookupLast entries "website"
      email := lookupLast entries "email"
      socials := match lookupLast entries "socials" with
        | some (.arr a) => .arr a
        | _ => .arr [] } := rfl

theorem mapIdx_objs (ind : String) (now : Nat) :
    ∀ (items : List JsonValue) (k : Nat),
    (∀ item ∈ items, ∃ e, item = .obj e) →
    ∃ leads, mapIdxExcept (fun i x => sanitizeItem ind now i x) k items = .ok leads ∧
      leads.length = items.length ∧
      ∀ i (hi : i < items.length) (hl : i < leads.length),
        sanitizeItem ind now (k + i) (items.get ⟨i, hi⟩) = .ok (leads.get ⟨i, hl⟩) := by
  intro items
  induction items with
  | nil =>
    intro k _
    exact ⟨[], rfl, rfl, fun i hi => absurd hi (by simp)⟩
  | cons x xs ih =>
    intro k hobj
    obtain ⟨e, rfl⟩ := hobj x (List.mem_cons_self x xs)
    obtain ⟨leads, hlds, hlen, hget⟩ := ih (k + 1) (fun item hm => hobj item (by simp [hm]))
    refine ⟨{
      id := jsOr (lookupLast e "id")
        (.str ("lead-" ++ toString now ++ "-" ++ toString k))
      name := jsOr (lookupLast e "name") (.str "Unknown Business")
      category := jsOr (lookupLast e "category") (.str ind)
      address := lookupLast e "address"
      phone := lookupLast e "phone"
      website := lookupLast e "website"
      email := lookupLast e "email"
      socials := match lookupLast e "socials" with
        | some (.arr a) => .arr a
        | _ => .arr [] } :: leads, ?_, by simp [hlen], ?_⟩
    · rw [mapIdxExcept]
      rw [sanitizeItem_obj]
      simp only [ex_bind_ok, hlds, ex_pure]
    · intro i hi hl
      cases i with
      | zero => simpa using (sanitizeItem_obj ind now k e).symm ▸ rfl
      | succ j =>
        have hj : j < xs.length := by simpa using hi
        have hjl : j < leads.length := by simp at hl; omega
        have := hget j hj hjl
        rw [show k + (j + 1) = (k + 1) + j by omega]
        simpa using this

theorem parseDb_of_dbspec {st : Store} {l : List UserRec}
    (h : (st.db = none ∧ l = []) ∨ st.db = some (jsonStringify (usersToJson l))) :
    parseDbValue st.db = .ok (usersToJson l) := by
  rcases h with ⟨h1, h2⟩ | h1
  · rw [h1, h2]; rfl
  · rw [h1, parseDb_users]

theorem login_eq_found {lower : String → String} {st : Store} {l : List UserRec}
    {email password : String}
    {u : UserRec} (hdb : parseDbValue st.db = .ok (usersToJson l))
    (hfind : l.find? (loginHit lower email password) = some u) :
    login lower st email password =
      (.ok (sessionOf u), { st with session := some (jsonStringify (sessionOf u)) }) := by
  rw [login, hdb]
  simp only [usersToJson]
  rw [jsFind_users, hfind]
  simp only [Option.map_some']
  rw [getField_user_id, getField_user_name, getField_user_email]
  rfl

theorem login_eq_nomatch {lower : String → String} {st : Store} {l : List UserRec}
    {email password : String}
    (hdb : parseDbValue st.db = .ok (usersToJson l))
    (hfind : l.find? (loginHit lower email password) = none) :
    login lower st email password =
      (.error (.message "Invalid email or password."), st) := by
  rw [login, hdb]
  simp only [usersToJson]
  rw [jsFind_users, hfind]
  rfl

theorem register_eq_success {lower : String → String} {st : Store} {l : List UserRec}
    {name email password : String} {now : Nat}
    (hdb : parseDbValue st.db = .ok (usersToJson l))
    (hany : l.any (fun u => decide (lower u.email = lower email)) = false) :
    register lower st name email password now =
      (.ok (sessionOf ⟨"user_" ++ toString now, name, email, password⟩),
       { db := some (jsonStringify (usersToJson
           (l ++ [⟨"user_" ++ toString now, name, email, password⟩]))),
         session := some (jsonStringify
           (sessionOf ⟨"user_" ++ toString now, name, email, password⟩)) }) := by
  rw [register, hdb]
  simp only [usersToJson]
  rw [jsAny_users, hany]
  simp only [List.map_append, List.map_cons, List.map_nil]
  rfl

theorem register_eq_duplicate {lower : String → String} {st : Store} {l : List UserRec}
    {name email password : String} {now : Nat}
    (hdb : parseDbValue st.db = .ok (usersToJson l))
    (hany : l.any (fun u => decide (lower u.email = lower email)) = true) :
    register lower st name email password now =
      (.error (.message "User already exists with this email."), st) := by
  rw [register, hdb]
  simp only [usersToJson]
  rw [jsAny_users, hany]

theorem login_preserves_db (lower : String → String) (st : Store)
    (email password : String) :
    ((login lower st email password).2).db = st.db := by
  rw [login]
  repeat' split
  all_goals rfl

theorem register_frame_or_ok (lower : String → String) (st : Store)
    (name email password : String) (now : Nat) :
    (register lower st name email password now).2 = st ∨
    ∃ v, (register lower st name email password now).1 = .ok v := by
  rw [register]
  repeat' split
  all_goals first
    | exact Or.inl rfl
    | exact Or.inr ⟨_, rfl⟩

/-- Claim C1, counterexample.  On the input below a fenced ```json block
is found (capture `bad`), parsing its interior fails, and the bracket
fallback — had it run — would have matched `[ \x7b"a": 1\x7d ]` and parsed it
successfully; yet the extractor returns the empty array, because the
shared `catch` returns before the fallback is attempted.  This refutes
the claim that the extractor then "falls back to step 2, returning an
empty sequence only if this fallback also fails". -/
theorem c1_counterexample :
    fenceCapture ("```json\nbad\n```\n[ \x7b\"a\": 1\x7d ]").data =
      some ('b' :: 'a' :: 'd' :: []) ∧
    jsonParse "bad" = none ∧
    (match arrayMatch ("```json\nbad\n```\n[ \x7b\"a\": 1\x7d ]").data with
     | some m => jsonParse (String.mk m)
     | none => none) = some (.arr [.obj [("a", .num "1")]]) ∧
    extractJsonFromMarkdown "```json\nbad\n```\n[ \x7b\"a\": 1\x7d ]" = .arr [] :=
  ⟨rfl, rfl, rfl, rfl⟩

/-- Claim C1, amended: when a fenced ```json block with a non-empty
capture is found but its interior fails to parse, the extractor returns
the empty sequence immediately, WITHOUT attempting the bracket-array
fallback; the fallback runs only when no fenced block is found or the
captured interior is empty. -/
theorem c1_fence_parse_failure_returns_empty (text : String) (cap : List Char)
    (h1 : fenceCapture text.data = some cap) (h2 : cap ≠ [])
    (h3 : jsonParse (String.mk cap) = none) :
    extractJsonFromMarkdown text = .arr [] := by
  have ha : extractAttempt text = .error .parseError := by
    rw [extractAttempt, h1]
    simp only []
    rw [if_pos h2, h3]
  rw [extractJsonFromMarkdown, ha]

/-- Witness for the amended C1 theorem at the counterexample input. -/
theorem c1_fence_parse_failure_returns_empty_witness :
    extractJsonFromMarkdown "```json\nbad\n```\n[ \x7b\"a\": 1\x7d ]" = .arr [] :=
  c1_fence_parse_failure_returns_empty _ ('b' :: 'a' :: 'd' :: [])
    rfl (List.cons_ne_nil _ _) rfl

/-- Claim C2, counterexample.  With the credential-list key holding the
non-JSON string `oops`, both `login` and `register` end in an uncaught
`JSON.parse` exception instead of treating the value as an empty list:
the auth service, unlike `getCurrentUser`, has no `try`/`catch` around
its `JSON.parse` of the stored list. -/
theorem c2_counterexample :
    (login id ⟨some "oops", none⟩ "a@b.c" "pw").1 = .error (.js .parseError) ∧
    (register id ⟨some "oops", none⟩ "Al" "a@b.c" "pw" 7).1 =
      .error (.js .parseError) :=
  ⟨rfl, rfl⟩

/-- Claim C2, amended: an absent or empty-string credential-list value is
treated as the empty list, but a stored value that fails JSON parsing
makes both `login` and `register` propagate the parse error to the
caller (leaving the store untouched) rather than proceeding — for every
platform case mapping `lower`. -/
theorem c2_corrupt_db_raises (lower : String → String) (st : Store)
    (name email password s : String)
    (now : Nat) (h1 : st.db = some s) (h2 : s ≠ "") (h3 : jsonParse s = none) :
    (login lower st email password).1 = .error (.js .parseError) ∧
    (login lower st email password).2 = st ∧
    (register lower st name email password now).1 = .error (.js .parseError) ∧
    (register lower st name email password now).2 = st := by
  have hp : parseDbValue st.db = .error .parseError := by
    rw [h1, parseDbValue, if_neg h2, h3]
  have hl : login lower st email password = (.error (.js .parseError), st) := by
    rw [login, hp]
  have hr : register lower st name email password now =
      (.error (.js .parseError), st) := by
    rw [register, hp]
  exact ⟨by rw [hl], by rw [hl], by rw [hr], by rw [hr]⟩

/-- Witness for the amended C2 theorem at the counterexample store. -/
theorem c2_corrupt_db_raises_witness :
    (login id ⟨some "oops", none⟩ "a@b.c" "pw").2 = (⟨some "oops", none⟩ : Store) :=
  (c2_corrupt_db_raises id ⟨some "oops", none⟩ "Al" "a@b.c" "pw" "oops" 7
    rfl (by decide) rfl).2.1

/-- Claim C9: `getCurrentUser` returns a record exactly when the stored
session value is present, non-empty (JS truthiness of the raw string) and
parses as JSON, and returns `none` otherwise; in particular a stored
value that fails to parse yields `none` instead of an error — the
`try`/`catch` in the source absorbs the `JSON.parse` failure.  (In the
model `getCurrentUser` is a pure read: it takes the store and returns
only the optional session value, reflecting that the source never writes
in this operation.) -/
theorem c9_getCurrentUser_characterisation (st : Store) :
    (∀ v, getCurrentUser st = some v ↔
      ∃ raw, st.session = some raw ∧ raw ≠ "" ∧ jsonParse raw = some v) ∧
    (∀ raw, st.session = some raw → jsonParse raw = none →
      getCurrentUser st = none) := by
  constructor
  · intro v
    cases hs : st.session with
    | none => simp [getCurrentUser, hs]
    | some s =>
      rw [getCurrentUser, hs]
      simp only []
      by_cases he : s = ""
      · subst he
        rw [if_pos rfl]
        constructor
        · intro h; exact absurd h (by simp)
        · rintro ⟨raw, hraw, hne, _⟩
          obtain rfl : "" = raw := by injection hraw
          exact absurd rfl hne
      · rw [if_neg he]
        constructor
        · intro h; exact ⟨s, rfl, he, h⟩
        · rintro ⟨raw, hraw, _, hp⟩
          obtain rfl : s = raw := by injection hraw
          exact hp
  · intro raw hraw hp
    rw [getCurrentUser, hraw]
    simp only []
    by_cases he : raw = ""
    · rw [if_pos he]
    · rw [if_neg he, hp]

/-- Witness for C9 at a store with a corrupted session value. -/
theorem c9_witness : getCurrentUser ⟨none, some "oops"⟩ = none :=
  (c9_getCurrentUser_characterisation ⟨none, some "oops"⟩).2 "oops" rfl rfl

/-- Claim C10: `login` (succeeding or failing) and `logout` never write
the credential-list key — the stored user list is exactly unchanged — and
a `register` call that does not succeed leaves it unchanged as well, so
only a successful `register` modifies it.  (`getCurrentUser` is a pure
read in the model; it produces no store at all.)  The statement holds
for every platform case mapping `lower`. -/
theorem c10_db_frame (lower : String → String) (st : Store)
    (name email password : String) (now : Nat) :
    ((login lower st email password).2).db = st.db ∧
    (logout st).db = st.db ∧
    ((¬ ∃ v, (register lower st name email password now).1 = .ok v) →
      ((register lower st name email password now).2).db = st.db) := by
  refine ⟨login_preserves_db lower st email password, rfl, ?_⟩
  intro hfail
  rcases register_frame_or_ok lower st name email password now with h | h
  · rw [h]
  · exact absurd h hfail

/-- Witness for C10 at a store whose register call fails (corrupt db). -/
theorem c10_witness :
    ((register id ⟨some "oops", none⟩ "Al" "a@b.c" "pw" 7).2).db = some "oops" :=
  (c10_db_frame id ⟨some "oops", none⟩ "Al" "a@b.c" "pw" 7).2.2 (by
    rintro ⟨v, hv⟩
    rw [show (register id ⟨some "oops", none⟩ "Al" "a@b.c" "pw" 7).1 =
      .error (.js .parseError) from rfl] at hv
    exact absurd hv (by simp))

/-- Claim C3: the extractor is total by construction — the model's
`extractJsonFromMarkdown` wraps the whole chain in the `catch` that maps
any exception to the empty array, exactly as the source's single
`try`/`catch` does — and on any input in which no contiguous substring
parses as JSON it returns the empty sequence: whatever the two regexes
select is a substring of the input, so both parse attempts fail. -/
theorem c3_no_parsable_json_yields_empty (text : String)
    (h : ∀ sub ∈ allInfixes text.data, (jsonParse (String.mk sub)).isNone = true) :
    extractJsonFromMarkdown text = .arr [] := by
  have hfb : arrayFallback text = .ok (.arr []) ∨
      arrayFallback text = .error .parseError := by
    rw [arrayFallback]
    cases ha : arrayMatch text.data with
    | none => exact Or.inl rfl
    | some m =>
      have hm := h m (mem_allInfixes_of_sub (arrayMatch_substring ha))
      rw [Option.isNone_iff_eq_none] at hm
      simp only []
      rw [hm]
      exact Or.inr rfl
  have hat : extractAttempt text = .ok (.arr []) ∨
      extractAttempt text = .error .parseError := by
    rw [extractAttempt]
    cases hf : fenceCapture text.data with
    | none => exact hfb
    | some cap =>
      simp only []
      by_cases hc : cap = []
      · rw [if_neg (by simp [hc])]
        exact hfb
      · rw [if_pos hc]
        have hm := h cap (mem_allInfixes_of_sub (fenceCapture_substring hf))
        rw [Option.isNone_iff_eq_none] at hm
        rw [hm]
        exact Or.inr rfl
  rcases hat with h1 | h1 <;> rw [extractJsonFromMarkdown, h1]

/-- Witness for C3 at a concrete input with no parsable JSON anywhere. -/
theorem c3_witness : extractJsonFromMarkdown "hi!" = .arr [] :=
  c3_no_parsable_json_yields_empty "hi!" (by decide)

/-- Claim C4: when the input text carries a fenced ```json block whose
(non-empty) interior parses as an array of N objects, the sanitising map
of `searchLeads` applied to the extractor's output yields exactly N leads
in source order, and for each element the defaults apply: a missing
`name` becomes "Unknown Business", a missing `category` becomes the
queried industry, a missing `id` becomes the generated
`lead-${now}-${index}` identifier, and a missing-or-non-array `socials`
becomes the empty sequence. -/
theorem c4_fenced_array_sanitised (text industry : String) (now : Nat)
    (cap : List Char) (items : List JsonValue)
    (h1 : fenceCapture text.data = some cap) (h2 : cap ≠ [])
    (h3 : jsonParse (String.mk cap) = some (.arr items))
    (hobj : ∀ item ∈ items, ∃ e, item = .obj e) :
    ∃ leads, sanitizeLeads industry now (extractJsonFromMarkdown text) = .ok leads ∧
      leads.length = items.length ∧
      ∀ i (hi : i < items.length) (hl : i < leads.length),
        ∀ e, items.get ⟨i, hi⟩ = .obj e →
          ((lookupLast e "name" = none →
             (leads.get ⟨i, hl⟩).name = .str "Unknown Business") ∧
           (lookupLast e "category" = none →
             (leads.get ⟨i, hl⟩).category = .str industry) ∧
           (lookupLast e "id" = none →
             (leads.get ⟨i, hl⟩).id =
               .str ("lead-" ++ toString now ++ "-" ++ toString i)) ∧
           ((∀ a, lookupLast e "socials" ≠ some (.arr a)) →
             (leads.get ⟨i, hl⟩).socials = .arr [])) := by
  have hx : extractJsonFromMarkdown text = .arr items := by
    have ha : extractAttempt text = .ok (.arr items) := by
      rw [extractAttempt, h1]
      simp only []
      rw [if_pos h2, h3]
    rw [extractJsonFromMarkdown, ha]
  rw [hx, sanitizeLeads]
  obtain ⟨leads, hm, hlen, hget⟩ := mapIdx_objs industry now items 0 hobj
  refine ⟨leads, hm, hlen, ?_⟩
  intro i hi hl e he
  have hs := hget i hi hl
  rw [he, Nat.zero_add, sanitizeItem_obj] at hs
  have hlead := (Except.ok.injEq _ _).mp hs
  refine ⟨?_, ?_, ?_, ?_⟩
  · intro hnone
    rw [← hlead]
    simp [jsOr, hnone]
  · intro hnone
    rw [← hlead]
    simp [jsOr, hnone]
  · intro hnone
    rw [← hlead]
    simp [jsOr, hnone]
  · intro hns
    rw [← hlead]
    show (match lookupLast e "socials" with
      | some (JsonValue.arr a) => JsonValue.arr a
      | _ => JsonValue.arr []) = JsonValue.arr []
    cases hv : lookupLast e "socials" with
    | none => rfl
    | some v =>
      cases v with
      | arr a => exact absurd hv (hns a)
      | null => rfl
      | bool b => rfl
      | num n => rfl
      | str s2 => rfl
      | obj o => rfl

/-- Witness for C4 at a concrete fenced input with two objects. -/
theorem c4_witness :
    ∃ leads, sanitizeLeads "Dentist" 9 (extractJsonFromMarkdown
      "```json\n[\x7b\"name\":\"Joe\"\x7d, \x7b\"id\":\"x\",\"socials\":5\x7d]\n```") = .ok leads ∧
      leads.length = 2 := by
  obtain ⟨leads, hok, hlen, _⟩ := c4_fenced_array_sanitised
    "```json\n[\x7b\"name\":\"Joe\"\x7d, \x7b\"id\":\"x\",\"socials\":5\x7d]\n```" "Dentist" 9
    ("[\x7b\"name\":\"Joe\"\x7d, \x7b\"id\":\"x\",\"socials\":5\x7d]").data
    [.obj [("name", .str "Joe")], .obj [("id", .str "x"), ("socials", .num "5")]]
    rfl (by simp) rfl
    (by
      intro item hm
      rcases List.mem_cons.mp hm with rfl | hm2
      · exact ⟨_, rfl⟩
      rcases List.mem_cons.mp hm2 with rfl | hm3
      · exact ⟨_, rfl⟩
      simp at hm3)
  refine ⟨leads, hok, ?_⟩
  rw [hlen]
  rfl

/-- Claim C5: for every platform case mapping `lower` (in particular the
engine's Unicode `toLowerCase`), from any store whose credential list is
absent or holds a serialised record list in which no record's email matches
the given email case-insensitively, `register` succeeds and returns the
session object `\x7bid, name, email\x7d` (whose id is the generated
`user_${now}` and which carries no password key), and an immediately
following `login` with the same email and password succeeds and returns the
same record. -/
theorem c5_register_then_login (lower : String → String) (st : Store)
    (l : List UserRec)
    (name email password : String) (now : Nat)
    (hdb : (st.db = none ∧ l = []) ∨ st.db = some (jsonStringify (usersToJson l)))
    (hfresh : ∀ u ∈ l, lower u.email ≠ lower email) :
    (register lower st name email password now).1 =
      .ok (.obj [("id", .str ("user_" ++ toString now)), ("name", .str name),
        ("email", .str email)]) ∧
    lookupLast [("id", JsonValue.str ("user_" ++ toString now)),
      ("name", .str name), ("email", .str email)] "password" = none ∧
    (login lower (register lower st name email password now).2 email password).1 =
      .ok (.obj [("id", .str ("user_" ++ toString now)), ("name", .str name),
        ("email", .str email)]) := by
  have hparse := parseDb_of_dbspec hdb
  have hany : l.any (fun u => decide (lower u.email = lower email)) = false := by
    rw [List.any_eq_false]
    intro u hu
    simpa using hfresh u hu
  have hreg := @register_eq_success lower st l name email password now hparse hany
  have hsess : sessionOf (⟨"user_" ++ toString now, name, email, password⟩ : UserRec) =
      .obj [("id", .str ("user_" ++ toString now)), ("name", .str name),
        ("email", .str email)] := rfl
  refine ⟨by rw [hreg, hsess], rfl, ?_⟩
  rw [hreg]
  have hfind : (l ++ [(⟨"user_" ++ toString now, name, email, password⟩ : UserRec)]).find?
      (loginHit lower email password) =
      some ⟨"user_" ++ toString now, name, email, password⟩ := by
    rw [List.find?_append]
    have h1 : l.find? (loginHit lower email password) = none := by
      rw [List.find?_eq_none]
      intro u hu
      simp only [loginHit, Bool.and_eq_true, decide_eq_true_eq, not_and]
      intro hlow
      exact absurd hlow (hfresh u hu)
    rw [h1]
    simp [List.find?, loginHit]
  rw [login_eq_found (parseDb_users _) hfind, hsess]

/-- Witness for C5 at the empty store, with the identity case mapping. -/
theorem c5_witness :
    (register id ⟨none, none⟩ "Al" "a@b.c" "pw" 42).1 =
      .ok (.obj [("id", .str "user_42"), ("name", .str "Al"),
        ("email", .str "a@b.c")]) :=
  (c5_register_then_login id ⟨none, none⟩ [] "Al" "a@b.c" "pw" 42
    (Or.inl ⟨rfl, rfl⟩) (by simp)).1

/-- Claim C6: for every platform case mapping `lower`, from any store holding
a serialised credential list in which some record's email matches the given
email case-insensitively (i.e. is identified by `lower`), `register` fails
with the duplicate-user error and returns the store completely unchanged —
in particular the stored credential list and the original record are
unmodified. -/
theorem c6_duplicate_register (lower : String → String) (st : Store)
    (l : List UserRec)
    (name email password : String) (now : Nat)
    (hdb : st.db = some (jsonStringify (usersToJson l)))
    (hdup : ∃ u ∈ l, lower u.email = lower email) :
    (register lower st name email password now).1 =
      .error (.message "User already exists with this email.") ∧
    (register lower st name email password now).2 = st := by
  have hparse := parseDb_of_dbspec (Or.inr hdb)
  have hany : l.any (fun u => decide (lower u.email = lower email)) = true := by
    rw [List.any_eq_true]
    obtain ⟨u, hu, hlow⟩ := hdup
    exact ⟨u, hu, by simpa using hlow⟩
  have h := @register_eq_duplicate lower st l name email password now hparse hany
  exact ⟨by rw [h], by rw [h]⟩

/-- Witness for C6: re-registering a stored email. -/
theorem c6_witness :
    (register id ⟨some (jsonStringify (usersToJson [⟨"user_1", "Al", "a@b.c", "pw"⟩])),
      none⟩ "Zed" "a@b.c" "xx" 5).1 =
      .error (.message "User already exists with this email.") :=
  (c6_duplicate_register id _ [⟨"user_1", "Al", "a@b.c", "pw"⟩] "Zed" "a@b.c" "xx" 5
    rfl ⟨⟨"user_1", "Al", "a@b.c", "pw"⟩, by simp, rfl⟩).1

/-- Claim C7: for every platform case mapping `lower`, from any store whose
credential list is absent or holds a serialised record list in which no
record matches the email case-insensitively together with the exact
password, `login` fails with the invalid-credentials error and returns the
store unchanged — in particular the persisted session value is untouched. -/
theorem c7_login_no_match (lower : String → String) (st : Store)
    (l : List UserRec) (email password : String)
    (hdb : (st.db = none ∧ l = []) ∨ st.db = some (jsonStringify (usersToJson l)))
    (hnomatch : ∀ u ∈ l,
      ¬(lower u.email = lower email ∧ u.password = password)) :
    (login lower st email password).1 =
      .error (.message "Invalid email or password.") ∧
    (login lower st email password).2 = st := by
  have hparse := parseDb_of_dbspec hdb
  have hfind : l.find? (loginHit lower email password) = none := by
    rw [List.find?_eq_none]
    intro u hu
    simp only [loginHit, Bool.and_eq_true, decide_eq_true_eq, not_and]
    intro h1 h2
    exact hnomatch u hu ⟨h1, h2⟩
  have h := login_eq_nomatch hparse hfind
  exact ⟨by rw [h], by rw [h]⟩

/-- Witness for C7: wrong password for an existing email. -/
theorem c7_witness :
    (login id ⟨some (jsonStringify (usersToJson [⟨"user_1", "Al", "a@b.c", "pw"⟩])),
      some "sess"⟩ "a@b.c" "wrong").2 =
      ⟨some (jsonStringify (usersToJson [⟨"user_1", "Al", "a@b.c", "pw"⟩])),
        some "sess"⟩ :=
  (c7_login_no_match id _ [⟨"user_1", "Al", "a@b.c", "pw"⟩] "a@b.c" "wrong"
    (Or.inr rfl) (by intro u hu; rcases List.mem_cons.mp hu with rfl | h
                     · intro hc; exact absurd hc.2 (by decide)
                     · simp at h)).2

/-- Claim C8: for every platform case mapping `lower`, `login`, `logout` and
`register` each preserve the unique-case-insensitive-email invariant of the
stored credential list (emails pairwise distinct under `lower`);
`getCurrentUser` is a pure read in the model (it produces no store), so
it preserves every store property trivially. -/
theorem c8_email_uniqueness_preserved (lower : String → String) (st : Store)
    (name email password : String) (now : Nat) (hinv : DbInv lower st) :
    DbInv lower (login lower st email password).2 ∧ DbInv lower (logout st) ∧
    DbInv lower (register lower st name email password now).2 := by
  have hlogin : DbInv lower (login lower st email password).2 := by
    rcases hinv with h | ⟨l, h1, h2⟩
    · exact Or.inl ((login_preserves_db lower st email password).trans h)
    · exact Or.inr ⟨l, (login_preserves_db lower st email password).trans h1, h2⟩
  refine ⟨hlogin, hinv, ?_⟩
  rcases hinv with h | ⟨l, h1, h2⟩
  · -- absent list: register writes the singleton list
    have hparse : parseDbValue st.db = .ok (usersToJson ([] : List UserRec)) := by
      rw [h]; rfl
    have h := @register_eq_success lower st [] name email password now hparse rfl
    rw [h]
    exact Or.inr ⟨[⟨"user_" ++ toString now, name, email, password⟩], rfl,
      List.pairwise_singleton _ _⟩
  · have hparse := parseDb_of_dbspec (Or.inr h1)
    cases hany : l.any (fun u => decide (lower u.email = lower email)) with
    | true =>
      have h := @register_eq_duplicate lower st l name email password now hparse hany
      rw [h]
      exact Or.inr ⟨l, h1, h2⟩
    | false =>
      have h := @register_eq_success lower st l name email password now hparse hany
      rw [h]
      refine Or.inr ⟨l ++ [⟨"user_" ++ toString now, name, email, password⟩], rfl, ?_⟩
      rw [List.pairwise_append]
      refine ⟨h2, List.pairwise_singleton _ _, ?_⟩
      intro a ha b hb
      obtain rfl : b = (⟨"user_" ++ toString now, name, email, password⟩ : UserRec) := by
        simpa using hb
      have := List.any_eq_false.mp hany a ha
      simpa using this

/-- Witness for C8 starting from the empty store. -/
theorem c8_witness :
    DbInv id (login id ⟨none, none⟩ "e" "p").2 ∧ DbInv id (logout ⟨none, none⟩) ∧
    DbInv id (register id ⟨none, none⟩ "Al" "a@b.c" "pw" 1).2 :=
  c8_email_uniqueness_preserved id ⟨none, none⟩ "Al" "a@b.c" "pw" 1 (Or.inl rfl)

end LeadsGen

